import Mathlib

/-!
Verification development for the signature-extraction pipeline of the
signatureScraper repository (src/signature_extractor.py, class
ImprovedSignatureExtractor).

The Python code is regex-table driven; we embed it shallowly:

* strings are Lean `String`s (ASCII semantics for case folding and
  character classes, which covers every construct the code relies on);
* each Python regex is transcribed into a small ordered-backtracking
  regex AST (`RE`) and executed by a fuel-indexed matcher whose match
  priority mirrors CPython re (ordered alternation, greedy/lazy bounded
  repetition, leftmost match for search, leftmost-non-overlapping for
  finditer);
* the external libraries used by the code (email.utils.parseaddr,
  BeautifulSoup anchor collection / text flattening, html2text,
  tldextract) are modelled as injected capabilities, exactly as the
  design notes of the specification prescribe for them.
-/

namespace SigScrape

/-! ### Character and string utilities (ASCII models of the Python builtins) -/

/-- Python `\s` for ASCII text: space, tab, newline, carriage return,
vertical tab, form feed. -/
def isSpaceChar (c : Char) : Bool :=
  c = ' ' || c = '\t' || c = '\n' || c = '\r' || c = '\u000B' || c = '\u000C'

/-- Python regex `\w` over ASCII: alphanumeric or underscore. -/
def isWordChar (c : Char) : Bool :=
  c.isAlphanum || c = '_'

/-- Characters Python `str.splitlines` splits on. -/
def isLineBreak (c : Char) : Bool :=
  c = '\n' || c = '\r' || c = '\u000B' || c = '\u000C' || c = '\u001C' ||
  c = '\u001D' || c = '\u001E' || c = '\u0085' || c = '\u2028' || c = '\u2029'

/-- Python `str.lower` (ASCII model). -/
def lowerStr (s : String) : String :=
  String.mk (s.data.map Char.toLower)

/-- Is `n` a literal prefix of `h`? -/
def listPfx : List Char → List Char → Bool
  | [], _ => true
  | _ :: _, [] => false
  | a :: as, b :: bs => a = b && listPfx as bs

/-- Does `n` occur as a contiguous sublist of `h`?  Model of Python
substring containment. -/
def listOccurs (n : List Char) : List Char → Bool
  | [] => listPfx n []
  | h@(_ :: t) => listPfx n h || listOccurs n t

/-- Python `t in s` (substring containment). -/
def containsStr (s t : String) : Bool :=
  listOccurs t.data s.data

/-- Python `c in s` for a single character. -/
def containsChar (s : String) (c : Char) : Bool :=
  s.data.contains c

/-- Split on runs of whitespace, dropping empties: Python `str.split()`
with no argument. -/
def splitWsAux : List Char → List Char → List (List Char)
  | [], acc => if acc.isEmpty then [] else [acc.reverse]
  | c :: t, acc =>
    if isSpaceChar c then
      if acc.isEmpty then splitWsAux t [] else acc.reverse :: splitWsAux t []
    else splitWsAux t (c :: acc)

def splitWs (s : String) : List String :=
  (splitWsAux s.data []).map String.mk

/-- Split at every separator character, keeping empty pieces: used for
Python `str.splitlines` (a CRLF yields one extra empty line compared to
Python, which is immaterial because the caller drops empty lines). -/
def splitEvery (p : Char → Bool) : List Char → List Char → List (List Char)
  | [], acc => [acc.reverse]
  | c :: t, acc => if p c then acc.reverse :: splitEvery p t [] else splitEvery p t (c :: acc)

def splitLinesPy (s : String) : List String :=
  (splitEvery isLineBreak s.data []).map String.mk

/-- Drop empty pieces except the final one (used to turn a
split-at-every-separator into a split-at-separator-runs). -/
def dropEmptyMid : List (List Char) → List (List Char)
  | [] => []
  | [x] => [x]
  | x :: rest => if x.isEmpty then dropEmptyMid rest else x :: dropEmptyMid rest

/-- Split on runs of separator characters, keeping empty edge pieces:
Python `re.split` with a `[...]+` pattern.  A run of k separators yields
k-1 empty pieces under splitEvery; removing the empty pieces that are
neither first nor last gives exactly the run-split. -/
def splitRunsList (p : Char → Bool) (l : List Char) : List (List Char) :=
  match splitEvery p l [] with
  | [] => []
  | x :: rest => x :: dropEmptyMid rest

def splitRuns (p : Char → Bool) (s : String) : List String :=
  (splitRunsList p s.data).map String.mk

/-- Strip characters satisfying `p` from both ends of a list. -/
def stripEdges (p : Char → Bool) (l : List Char) : List Char :=
  ((l.dropWhile p).reverse.dropWhile p).reverse

/-- Python `str.strip()` with no argument (whitespace). -/
def pyStrip (s : String) : String :=
  String.mk (stripEdges isSpaceChar s.data)

/-- Python `str.strip(chars)`. -/
def pyStripSet (cs : List Char) (s : String) : String :=
  String.mk (stripEdges (fun c => cs.contains c) s.data)

/-- Python `s.split(sep, 1)[0]` for a one-character separator (also the
whole string when the separator is absent). -/
def beforeChar (c : Char) (s : String) : String :=
  String.mk (s.data.takeWhile (· ≠ c))

/-- Python `s.split(sep, 1)[1]` for a one-character separator, empty when
the separator is absent. -/
def afterChar (c : Char) (s : String) : String :=
  String.mk ((s.data.dropWhile (· ≠ c)).drop 1)

/-- Order-preserving deduplication: Python `list(dict.fromkeys(xs))`. -/
def dedupKeepFirstAux : List String → List String → List String
  | _, [] => []
  | seen, x :: t =>
    if seen.contains x then dedupKeepFirstAux seen t
    else x :: dedupKeepFirstAux (x :: seen) t

def dedupKeepFirst (l : List String) : List String :=
  dedupKeepFirstAux [] l

/-- Python `sep.join(xs)`. -/
def joinWith (sep : String) : List String → String
  | [] => ""
  | [x] => x
  | x :: t => x ++ sep ++ joinWith sep t

/-- Python `str.capitalize`: first character uppercased, the rest
lowercased (ASCII model). -/
def capitalizePy (s : String) : String :=
  match s.data with
  | [] => ""
  | c :: t => String.mk (c.toUpper :: t.map Char.toLower)

/-- Uppercase only the first character, keep the rest: Python
`w[0].upper() + w[1:]`. -/
def upperFirst (s : String) : String :=
  match s.data with
  | [] => ""
  | c :: t => String.mk (c.toUpper :: t)

/-- Python `str.title` (ASCII model): a letter is uppercased when the
previous character is not a letter, lowercased otherwise. -/
def titlePyAux : List Char → Bool → List Char
  | [], _ => []
  | c :: t, prevAlpha =>
    (if c.isAlpha then (if prevAlpha then c.toLower else c.toUpper) else c) ::
      titlePyAux t c.isAlpha

def titlePy (s : String) : String :=
  String.mk (titlePyAux s.data false)

/-- Python `str.isupper` (ASCII model): at least one letter, and every
letter uppercase. -/
def isUpperPy (s : String) : Bool :=
  s.data.any (fun c => c.isAlpha) && s.data.all (fun c => !c.isAlpha || c.isUpper)

/-- Replace every run of two or more whitespace characters by a single
space: Python `re.sub(r'\s\x7b2,\x7d', ' ', s)`. -/
def replWs2Fuel : Nat → List Char → List Char
  | 0, l => l
  | _ + 1, [] => []
  | _ + 1, [c] => [c]
  | fuel + 1, c :: c2 :: t =>
    if isSpaceChar c && isSpaceChar c2 then
      ' ' :: replWs2Fuel fuel ((c2 :: t).dropWhile isSpaceChar)
    else c :: replWs2Fuel fuel (c2 :: t)

def replWs2 (l : List Char) : List Char :=
  replWs2Fuel (l.length + 1) l

/-- Replace every run of one or more whitespace characters by a single
space: Python `re.sub(r'\s+', ' ', s)`. -/
def replWsAllFuel : Nat → List Char → List Char
  | 0, l => l
  | _ + 1, [] => []
  | fuel + 1, c :: t =>
    if isSpaceChar c then ' ' :: replWsAllFuel fuel (t.dropWhile isSpaceChar)
    else c :: replWsAllFuel fuel t

def replWsAll (l : List Char) : List Char :=
  replWsAllFuel (l.length + 1) l

/-- All digit characters of `s`, in order: Python
`re.sub(r'[^\d]', '', s)`. -/
def digitsOf (s : String) : List Char :=
  s.data.filter Char.isDigit

/-- Python `str.find` (first index of a substring, `-1` when absent). -/
def findSubAux (n : List Char) : List Char → Nat → Option Nat
  | [], i => if listPfx n [] then some i else none
  | h@(_ :: t), i => if listPfx n h then some i else findSubAux n t (i + 1)

def pyFind (s t : String) : Int :=
  match findSubAux t.data s.data 0 with
  | some i => (i : Int)
  | none => -1

/-- Python slice `s[a:b]` for `0 ≤ a ≤ b`. -/
def pySlice (s : String) (a b : Nat) : String :=
  String.mk ((s.data.drop a).take (b - a))

/-! ### A small backtracking regex engine

Ordered-alternation, greedy/lazy bounded repetition, word boundaries and
an end anchor: exactly the constructs used by the regexes of
signature_extractor.py.  The matcher enumerates successes in CPython re
backtracking priority order, so the head of the list is the match the
Python engine reports.  Repetition bodies of every transcribed pattern
consume at least one character, so the progress guard in `rep` is
semantics-preserving. -/

inductive RE where
  | eps : RE
  | cls : (Char → Bool) → RE
  | cat : RE → RE → RE
  | alt : RE → RE → RE
  | rep : Bool → Nat → Option Nat → RE → RE
  | grp : Nat → RE → RE
  | wb : RE
  | eos : RE

/-- Is position `i` of `cs` a Python `\b` word boundary? -/
def atWB (cs : List Char) (i : Nat) : Bool :=
  let w : Nat → Bool := fun j =>
    match cs.get? j with
    | some c => isWordChar c
    | none => false
  (if i = 0 then false else w (i - 1)) != w i

/-- One capture record: group index, start position, end position. -/
abbrev Caps := List (Nat × Nat × Nat)

/-- Run regex `r` on `cs` starting at position `i`; return the list of
(end position, captures) successes in backtracking priority order. -/
def mrun (cs : List Char) : Nat → RE → Nat → Caps → List (Nat × Caps)
  | 0, _, _, _ => []
  | _ + 1, .eps, i, cp => [(i, cp)]
  | _ + 1, .cls p, i, cp =>
    match cs.get? i with
    | some c => if p c then [(i + 1, cp)] else []
    | none => []
  | fuel + 1, .cat a b, i, cp =>
    (mrun cs fuel a i cp).flatMap fun pr => mrun cs fuel b pr.1 pr.2
  | fuel + 1, .alt a b, i, cp =>
    mrun cs fuel a i cp ++ mrun cs fuel b i cp
  | fuel + 1, .grp n a, i, cp =>
    (mrun cs fuel a i cp).map fun pr => (pr.1, (n, i, pr.1) :: pr.2)
  | _ + 1, .wb, i, cp => if atWB cs i then [(i, cp)] else []
  | _ + 1, .eos, i, cp => if i = cs.length then [(i, cp)] else []
  | fuel + 1, .rep g lo hi a, i, cp =>
    match lo with
    | m + 1 =>
      (mrun cs fuel a i cp).flatMap fun pr =>
        if pr.1 ≤ i then []
        else mrun cs fuel (.rep g m (hi.map (· - 1)) a) pr.1 pr.2
    | 0 =>
      match hi with
      | some 0 => [(i, cp)]
      | _ =>
        let step := (mrun cs fuel a i cp).flatMap fun pr =>
          if pr.1 ≤ i then []
          else mrun cs fuel (.rep g 0 (hi.map (· - 1)) a) pr.1 pr.2
        if g then step ++ [(i, cp)] else (i, cp) :: step

/-- Fuel that dominates the recursion depth of every pattern in this file
on input `cs` (nesting depth of the transcribed patterns is bounded by a
small constant, and unbounded repetitions advance through `cs`). -/
def fuelFor (cs : List Char) : Nat :=
  8 * cs.length + 600

/-- Anchored match at position `i` (Python `re.match` semantics when
`i = 0`): the highest-priority success, if any. -/
def mfirst (cs : List Char) (r : RE) (i : Nat) : Option (Nat × Caps) :=
  (mrun cs (fuelFor cs) r i []).head?

/-- Leftmost search: try each start position in turn (Python
`re.search`).  Returns (start, end, captures). -/
def searchAux (cs : List Char) (r : RE) : Nat → Nat → Option (Nat × Nat × Caps)
  | 0, _ => none
  | k + 1, i =>
    match mfirst cs r i with
    | some pr => some (i, pr.1, pr.2)
    | none => searchAux cs r k (i + 1)

def research (cs : List Char) (r : RE) : Option (Nat × Nat × Caps) :=
  searchAux cs r (cs.length + 1) 0

/-- Does the pattern match anywhere (Python truthiness of `re.search`)? -/
def retest (s : String) (r : RE) : Bool :=
  (research s.data r).isSome

/-- Python `re.match` truthiness (anchored at the string start). -/
def rematches (s : String) (r : RE) : Bool :=
  (mfirst s.data r 0).isSome

/-- All matches, leftmost and non-overlapping (Python `re.finditer`). -/
def finditerAux (cs : List Char) (r : RE) : Nat → Nat → List (Nat × Nat × Caps)
  | 0, _ => []
  | k + 1, i =>
    match searchAux cs r (cs.length + 1 - i) i with
    | none => []
    | some (s, e, cp) =>
      (s, e, cp) :: finditerAux cs r k (if s < e then e else s + 1)

def refinditer (cs : List Char) (r : RE) : List (Nat × Nat × Caps) :=
  finditerAux cs r (cs.length + 1) 0

/-- The substring of `cs` between positions `a` and `b`. -/
def subStr (cs : List Char) (a b : Nat) : String :=
  String.mk ((cs.drop a).take (b - a))

/-- The text captured by group `n` (the most recently completed capture
wins, as in CPython). -/
def grpStr (cs : List Char) (cp : Caps) (n : Nat) : Option String :=
  (cp.find? fun t => t.1 = n).map fun t => subStr cs t.2.1 t.2.2

/-- Python `re.findall` for a pattern without capture groups: the full
match texts. -/
def refindall (s : String) (r : RE) : List String :=
  (refinditer s.data r).map fun t => subStr s.data t.1 t.2.1

/-! #### Pattern construction helpers -/

def lit (c : Char) : RE := .cls (· = c)

/-- A case-insensitive literal character (patterns compiled with
re.IGNORECASE). -/
def litCI (c : Char) : RE := .cls (fun x => x.toLower = c.toLower)

def seqRE (rs : List RE) : RE := rs.foldr .cat .eps

def strRE (s : String) : RE := seqRE (s.data.map lit)

def strCI (s : String) : RE := seqRE (s.data.map litCI)

def altRE : List RE → RE
  | [] => .cls (fun _ => false)
  | [r] => r
  | r :: t => .alt r (altRE t)

/-- Greedy `r?`. -/
def optRE (r : RE) : RE := .rep true 0 (some 1) r

/-- Greedy `r+`. -/
def plusRE (r : RE) : RE := .rep true 1 none r

/-- Greedy `r*`. -/
def starRE (r : RE) : RE := .rep true 0 none r

/-- Bounded greedy repetition. -/
def repRE (lo hi : Nat) (r : RE) : RE := .rep true lo (some hi) r

def wsC : RE := .cls isSpaceChar
def digitC : RE := .cls Char.isDigit

/-! ### Configuration tables of ImprovedSignatureExtractor -/

def LEGAL_SUFFIXES : List String :=
  ["Inc", "Inc.", "LLC", "Ltd", "Ltd.", "Corp", "Corporation", "Company", "Co.", "GmbH",
   "Pvt", "Private Limited", "LLP", "PLC", "S.A.", "SAS", "BV", "AG", "Oy", "AB"]

def COPYRIGHT_WORDS : List String :=
  ["copyright", "©", "all rights reserved", "rights reserved", "®", "™"]

def UNSUB_WORDS : List String :=
  ["unsubscribe", "opt-out", "optout", "privacy policy", "terms of service", "click here"]

def TRACKING_HINTS : List String :=
  ["utm_", "trk", "track", "click", "email", "unsubscribe", "mandrillapp", "sendgrid",
   "mailchimp", "list-manage", "t.sidekick", "link.track", "protector", "r20.rs6.net",
   "emltrk", "sfmc", "postmarkapp", "sparkpost", "amazonses"]

def CURRENCY_HINTS : List String :=
  ["rs.", "rs", "₹", "$", "usd", "inr", "eur"]

def genericBrandTokens : List String :=
  ["mail", "email", "mailer", "mx", "smtp", "noreply", "no-reply", "notify", "notification",
   "newsletter", "news", "updates", "support", "help", "helpdesk", "service", "services",
   "account", "accounts", "communication", "gateway", "secure", "auth", "login", "signin",
   "web", "app", "apps", "cloud", "online", "corp", "company"]

def MINI_ROLE_WORDS : List String :=
  ["support", "help", "hello", "contact", "team", "sales", "marketing", "info",
   "noreply", "no-reply", "donotreply", "newsletter", "alerts", "updates",
   "admin", "hr", "jobs", "career", "careers", "billing", "accounts"]

/-! ### The transcribed regexes -/

/-- Class `[A-Za-z0-9._%+-]`. -/
def emailLocalChar (c : Char) : Bool :=
  c.isAlphanum || c = '.' || c = '_' || c = '%' || c = '+' || c = '-'

/-- Class `[A-Za-z0-9.-]`. -/
def hostChar (c : Char) : Bool :=
  c.isAlphanum || c = '.' || c = '-'

/-- Class `[A-Z|a-z]` of the email pattern (the bar is a literal member). -/
def emailTldChar (c : Char) : Bool :=
  c.isAlpha || c = '|'

/-- email_pattern from the source. -/
def emailRE : RE :=
  seqRE [.wb, plusRE (.cls emailLocalChar), lit '@', plusRE (.cls hostChar),
         lit '.', .rep true 2 none (.cls emailTldChar), .wb]

/-- Class `[\s.-]`. -/
def phoneSepChar (c : Char) : Bool :=
  isSpaceChar c || c = '.' || c = '-'

/-- phone_pattern from the source. -/
def phonePatRE : RE :=
  seqRE [optRE (seqRE [optRE (lit '+'), repRE 1 3 digitC, optRE (.cls phoneSepChar)]),
         optRE (lit '('), repRE 2 4 digitC, optRE (lit ')'), optRE (.cls phoneSepChar),
         repRE 3 4 digitC, optRE (.cls phoneSepChar), repRE 3 4 digitC,
         optRE (seqRE [starRE wsC, altRE [strRE "ext", strRE "x", strRE "extension"],
                       starRE wsC, repRE 1 5 digitC])]

/-- website_pattern from the source; `ci` selects the re.IGNORECASE
compilation used by extract_job_title (extract_address compiles it
without flags). -/
def websiteRE (ci : Bool) : RE :=
  let w : String → RE := fun s => if ci then strCI s else strRE s
  seqRE [optRE (seqRE [w "http", optRE (if ci then litCI 's' else lit 's'), strRE "://"]),
         optRE (seqRE [w "www", lit '.']),
         .cls Char.isAlphanum, starRE (.cls (fun c => c = '-' || c.isAlphanum)),
         lit '.', .rep true 2 none (.cls Char.isAlpha),
         optRE (seqRE [lit '/', starRE (.cls (fun c => !isSpaceChar c))])]

/-- Class `[\s_*=-]`. -/
def sepSymChar (c : Char) : Bool :=
  isSpaceChar c || c = '_' || c = '*' || c = '=' || c = '-'

/-- Optional `[,!]` after a courtesy word. -/
def punctOptRE : RE := optRE (.cls (fun c => c = ',' || c = '!'))

/-- signature_separators from the source, in order (each is re.match-ed
with re.IGNORECASE against the stripped line). -/
def signatureSeparators : List RE :=
  [seqRE [.rep true 2 none (.cls sepSymChar), .eos],
   seqRE [strRE "--", starRE wsC, .eos],
   seqRE [strCI "Thank", optRE (litCI 's'), punctOptRE, starRE wsC, .eos],
   seqRE [strCI "Best", punctOptRE, starRE wsC, .eos],
   seqRE [strCI "Regard", optRE (litCI 's'), punctOptRE, starRE wsC, .eos],
   seqRE [strCI "Sincerely", punctOptRE, starRE wsC, .eos],
   seqRE [strCI "Cheer", optRE (litCI 's'), punctOptRE, starRE wsC, .eos],
   seqRE [strCI "Warm regard", optRE (litCI 's'), punctOptRE, starRE wsC, .eos],
   seqRE [strCI "Kind regard", optRE (litCI 's'), punctOptRE, starRE wsC, .eos],
   seqRE [strCI "Best regard", optRE (litCI 's'), punctOptRE, starRE wsC, .eos]]

/-- A line counts as a tier-1 separator when, after stripping, one of the
signature_separators matches it from the start. -/
def isSigSeparator (line : String) : Bool :=
  signatureSeparators.any fun r => rematches (pyStrip line) r

/-- Tier-2 courtesy-word search pattern of find_signature_start. -/
def courtesyRE : RE :=
  seqRE [.wb,
         .grp 1 (altRE (["Best", "Regards", "Sincerely", "Thank you", "Thanks", "Cheers",
                         "Warm regards", "Kind regards", "Best regards"].map strCI)),
         .wb]

/-- Class `[\d\s().-]` of the phone chunk patterns. -/
def numMidChar (c : Char) : Bool :=
  c.isDigit || isSpaceChar c || c = '(' || c = ')' || c = '.' || c = '-'

/-- number_chunk `(\+?\d[\d\s().-]\x7b5,24\x7d\d)` capturing as group `n`. -/
def numChunkRE (n : Nat) : RE :=
  .grp n (seqRE [optRE (lit '+'), digitC, repRE 5 24 (.cls numMidChar), digitC])

/-- context_words alternation of extract_phones (re.IGNORECASE). -/
def ctxWordsRE : RE :=
  altRE (["phone", "mobile", "cell", "tel", "telephone", "call", "contact",
          "office", "work", "fax"].map strCI)

/-- context_pattern of extract_phones. -/
def contextPhoneRE : RE :=
  .alt (seqRE [ctxWordsRE, starRE wsC, optRE (.cls (fun c => c = ':' || c = '-')),
               starRE wsC, numChunkRE 1])
       (seqRE [numChunkRE 2, starRE wsC, ctxWordsRE])

/-- loose_pattern of extract_phones. -/
def loosePhoneRE : RE := numChunkRE 1

/-- Class `[()\s.\-]` of _looks_like_tracking_id. -/
def trackSepChar (c : Char) : Bool :=
  c = '(' || c = ')' || isSpaceChar c || c = '.' || c = '-'

/-- Class `[\w&.,\- ]` of the legal-suffix company pattern. -/
def companyChar (c : Char) : Bool :=
  isWordChar c || c = '&' || c = '.' || c = ',' || c = '-' || c = ' '

/-- The legal-suffix anchored company pattern of
_extract_company_from_line (case-sensitive; the lazy middle and the
suffix alternation order are as in the source). -/
def companyRE : RE :=
  seqRE [.grp 1 (seqRE [.cls Char.isUpper, .rep false 1 (some 100) (.cls companyChar),
                        .wb, altRE (LEGAL_SUFFIXES.map strRE), optRE (lit '.')]),
         .wb]

/-- csuite_pat of extract_job_title (re.IGNORECASE). -/
def csuiteRE : RE :=
  seqRE [.wb,
         altRE (["CEO", "CTO", "CFO", "COO", "CMO", "CIO", "CDO", "CPO", "CSO", "CHRO",
                 "CISO", "CRO", "VP", "Vice President"].map strCI),
         .wb]

/-- Seniority alternation of generic_title_pat. -/
def seniorityRE : RE :=
  altRE (["Senior", "Sr.", "Junior", "Jr.", "Lead", "Principal", "Head", "Chief",
          "Assistant", "Associate"].map strCI)

/-- Head nouns of generic_title_pat. -/
def headNounRE : RE :=
  altRE (["Manager", "Director", "Engineer", "Coordinator", "Architect", "Analyst",
          "Designer", "Officer", "Executive", "Developer", "Consultant", "Specialist",
          "Administrator", "Supervisor", "Owner", "Founder", "President"].map strCI)

/-- Class `[A-Za-z/&+.-]` of the pre-modifier tokens. -/
def modChar (c : Char) : Bool :=
  c.isAlpha || c = '/' || c = '&' || c = '+' || c = '.' || c = '-'

/-- One pre-modifier token: `[A-Z][A-Za-z/&+.-]\x7b1,20\x7d|[A-Z]\x7b2,6\x7d`
(under re.IGNORECASE `[A-Z]` matches any ASCII letter). -/
def modTokRE : RE :=
  .alt (seqRE [.cls Char.isAlpha, repRE 1 20 (.cls modChar)])
       (repRE 2 6 (.cls Char.isAlpha))

/-- generic_title_pat of extract_job_title. -/
def genericTitleRE : RE :=
  seqRE [.wb, optRE (seqRE [seniorityRE, plusRE wsC]),
         .rep true 0 (some 3) (seqRE [modTokRE, plusRE wsC]), headNounRE, .wb]

/-- Punctuation searched after a generic-title match when scoring it. -/
def punctAfterRE : RE :=
  .cls (fun c => c = ',' || c = '.' || c = ';' || c = ':' || c = '|' ||
                 c = '–' || c = '—' || c = '-')

/-- Address keyword patterns of extract_address (re.IGNORECASE). -/
def addrRE1 : RE :=
  seqRE [.wb, .grp 1 (altRE (["Street", "St", "Road", "Rd", "Avenue", "Ave", "Boulevard",
                              "Blvd", "Lane", "Ln", "Drive", "Dr"].map strCI)), .wb]

def addrRE2 : RE :=
  seqRE [.wb, .grp 1 (altRE (["Suite", "Ste", "Floor", "Fl", "Room", "Unit", "Building",
                              "Tower", "Center", "Centre"].map strCI)), .wb]

def addrRE3 : RE :=
  seqRE [.wb, .grp 1 (altRE (["City", "State", "Province", "Country", "Zip", "Postal",
                              "Code"].map strCI)), .wb]

def addrRE4 : RE := repRE 3 6 digitC

def addressKeywordREs : List RE := [addrRE1, addrRE2, addrRE3, addrRE4]

/-- `https?://|\bwww\.` of _looks_like_email_or_url (re.IGNORECASE). -/
def urlHintRE : RE :=
  .alt (seqRE [strCI "http", optRE (litCI 's'), strRE "://"])
       (seqRE [.wb, strCI "www", lit '.'])

/-- `[A-Za-z0-9.-]+\.[A-Za-z]\x7b2,\x7d` bare-domain token pattern of
_looks_like_email_or_url. -/
def bareDomainRE : RE :=
  seqRE [plusRE (.cls hostChar), lit '.', .rep true 2 none (.cls Char.isAlpha)]

/-- The drop pattern `(example\.com|test\.com|localhost)` of
extract_emails, re.IGNORECASE-searched: equivalent to case-insensitive
substring containment of one of the three literals. -/
def isDroppedEmail (e : String) : Bool :=
  containsStr (lowerStr e) "example.com" || containsStr (lowerStr e) "test.com" ||
    containsStr (lowerStr e) "localhost"

/-- Case-insensitive prefix test. -/
def ciStartsWith (s p : String) : Bool :=
  listPfx p.data (lowerStr s).data

/-- metadata_patterns of the source, each of the form
`^Word:\s*.+$` or `^\*\*Word:\*\*.+$` re.match-ed with re.IGNORECASE:
a line matches exactly when it starts with the literal prefix
(case-insensitively) and at least one character follows (lines contain
no newline, so `\s*.+` accepts any non-empty remainder). -/
def metaPrefixes : List String :=
  ["from:", "sent:", "to:", "subject:", "date:", "cc:", "bcc:",
   "**from:**", "**sent:**", "**to:**", "**subject:**"]

def isMetadataLine (line : String) : Bool :=
  metaPrefixes.any fun p => ciStartsWith line p && p.data.length < line.data.length

/-! ### Capabilities for the external libraries

Modelled from the spec: the design notes prescribe treating the HTML
parsing library (BeautifulSoup), the fallback HTML-to-text converter
(html2text), the public-suffix domain parser (tldextract) and the RFC
5322 header parser (email.utils.parseaddr) as injected capabilities with
the contracts given there; the pipeline itself is quantified over any
such capability record. -/

structure ExtCaps where
  /-- email.utils.parseaddr: display name and address of a header. -/
  parseaddr : String → String × String
  /-- The href of every anchor element of the markup, in document order. -/
  anchorHrefs : String → List String
  /-- BeautifulSoup get_text after decomposing script, style, meta, link
  and head elements. -/
  soupText : String → String
  /-- html2text fallback conversion (links, images ignored). -/
  h2tText : String → String
  /-- tldextract.extract: subdomain, domain and public suffix of a URL
  or host string. -/
  tldx : String → String × String × String

/-! ### Helper methods of ImprovedSignatureExtractor -/

/-- _text_has: the lowercased text contains one of the words. -/
def text_has (s : String) (ws : List String) : Bool :=
  ws.any fun w => containsStr (lowerStr s) w

/-- The characters _clean_token strips from both ends. -/
def cleanTokenChars : List Char :=
  ['.', ',', ';', '·', '*', '(', ')', '[', ']', '\x7B', '\x7D', '<', '>', '|', '"', '\'']

/-- _clean_token. -/
def clean_token (w : String) : String :=
  pyStripSet cleanTokenChars w

/-- _valid_domain, with tldextract injected. -/
def valid_domain (caps : ExtCaps) (token0 : String) : Option String :=
  let token := clean_token token0
  if token = "" || containsChar token '@' then none
  else if text_has token CURRENCY_HINTS then none
  else if token.data.any Char.isDigit && !token.data.any Char.isAlpha then none
  else
    let candidate :=
      if listPfx "http://".data token.data || listPfx "https://".data token.data then token
      else "http://" ++ token
    let ext := caps.tldx candidate
    if ext.2.2 = "" then none
    else
      let registered := joinWith "." ([ext.2.1, ext.2.2].filter (· ≠ ""))
      if registered = "" then none
      else
        let fullHost := joinWith "." ([ext.1, ext.2.1, ext.2.2].filter (· ≠ ""))
        if text_has fullHost TRACKING_HINTS then none
        else some (lowerStr registered)

/-- _brand_from_registered_domain. -/
def brand_from_registered_domain (rdOpt : Option String) : Option String :=
  match rdOpt with
  | none => none
  | some rd0 =>
    if rd0 = "" then none
    else
      let rd := lowerStr rd0
      let label := String.mk ((beforeChar '.' rd).data.filter (fun c => !c.isDigit))
      let parts0 := ((splitEvery (fun c => c = '-' || c = '_') label.data []).map String.mk).filter
        (· ≠ "")
      let parts1 :=
        if parts0.length > 1 then parts0.filter (fun p => !genericBrandTokens.contains p)
        else parts0
      let parts := if parts1.isEmpty then (if label ≠ "" then [label] else []) else parts1
      let brand := joinWith "" (parts.map capitalizePy)
      if brand = "" then none else some brand

/-- The (length, lexicographic) total preorder used as the sort key of
_prefer_website, Python `key=lambda x: (len(x), x)`. -/
def webKeyLe (a b : String) : Prop :=
  a.length < b.length ∨ (a.length = b.length ∧ a ≤ b)

instance : DecidableRel webKeyLe := fun a b => by
  unfold webKeyLe; infer_instance

instance : IsTotal String webKeyLe where
  total a b := by
    unfold webKeyLe
    rcases Nat.lt_trichotomy a.length b.length with h | h | h
    · exact Or.inl (Or.inl h)
    · rcases le_total a b with hab | hab
      · exact Or.inl (Or.inr ⟨h, hab⟩)
      · exact Or.inr (Or.inr ⟨h.symm, hab⟩)
    · exact Or.inr (Or.inl h)

instance : IsTrans String webKeyLe where
  trans a b c hab hbc := by
    unfold webKeyLe at *
    rcases hab with h1 | ⟨e1, l1⟩ <;> rcases hbc with h2 | ⟨e2, l2⟩
    · exact Or.inl (Nat.lt_trans h1 h2)
    · exact Or.inl (e2 ▸ h1)
    · exact Or.inl (e1 ▸ h2)
    · exact Or.inr ⟨e1.trans e2, le_trans l1 l2⟩

/-- _prefer_website.  Python sorts the deduplicated candidates by the
(length, string) key; the key determines the string, so the sorted list
is the unique webKeyLe-sorted enumeration, here produced by insertion
sort. -/
def prefer_website (candidates : List String) (senderDomain : Option String) : Option String :=
  if candidates.isEmpty then none
  else
    match senderDomain with
    | some sd =>
      if sd ≠ "" && (candidates.map lowerStr).contains (lowerStr sd) then some (lowerStr sd)
      else ((dedupKeepFirst (candidates.map lowerStr)).insertionSort webKeyLe).head?
    | none => ((dedupKeepFirst (candidates.map lowerStr)).insertionSort webKeyLe).head?

/-! ### Person-name inference helpers -/

/-- _cap. -/
def cap (s : String) : String :=
  let t := pyStrip s
  if t = "" then t else capitalizePy t

/-- The alphabetic whitespace tokens of a display name:
`[t for t in disp.strip().split() if any(c.isalpha() for c in t)]`. -/
def alphaToks (disp : String) : List String :=
  (splitWs disp).filter fun t => t.data.any Char.isAlpha

/-- _looks_like_person: at least two alphabetic tokens and no role word
occurring as a substring of the lowercased display name. -/
def looks_like_person (disp : String) : Bool :=
  if (alphaToks disp).length < 2 then false
  else !(MINI_ROLE_WORDS.any fun w => containsStr (lowerStr disp) w)

/-- Is there an adjacent lowercase-uppercase pair
(`re.search(r'[a-z][A-Z]', s)`)? -/
def camelSearch : List Char → Bool
  | a :: b :: t => (a.isLower && b.isUpper) || camelSearch (b :: t)
  | _ => false

/-- Insert a space into every lowercase-uppercase pair
(`re.sub(r'([a-z])([A-Z])', r'\1 \2', s)`; the two-character matches
cannot overlap, so the pairwise scan coincides with re.sub). -/
def camelSpace : List Char → List Char
  | a :: b :: t =>
    if a.isLower && b.isUpper then a :: ' ' :: camelSpace (b :: t)
    else a :: camelSpace (b :: t)
  | l => l

/-- `re.sub(r'^\d+|\d+$', '', p)`: remove the leading and the trailing
digit run. -/
def stripEdgeDigits (l : List Char) : List Char :=
  stripEdges Char.isDigit l

/-- _split_local_simple. -/
def split_local_simple (localPart : String) : List String :=
  let base := beforeChar '+' localPart
  let parts0 := (splitRunsList (fun c => c = '.' || c = '_' || c = '-') base.data).map String.mk
  let parts1 :=
    if parts0.length = 1 && camelSearch (parts0.headD "").data then
      splitWs (String.mk (camelSpace (parts0.headD "").data))
    else parts0
  let parts2 := parts1.map fun p => String.mk (stripEdgeDigits p.data)
  parts2.filter fun p => p.data.any Char.isAlpha

/-- _is_role_local. -/
def is_role_local (localPart : String) : Bool :=
  let base := lowerStr (beforeChar '+' localPart)
  let bits := (splitRunsList (fun c => c = '.' || c = '_' || c = '-') base.data).map String.mk
  bits.any fun b => MINI_ROLE_WORDS.contains b

/-- _name_from_email_simple. -/
def name_from_email_simple (emailAddr : Option String) :
    Option String × Option String × Option String :=
  match emailAddr with
  | none => (none, none, none)
  | some addr =>
    if addr = "" || !containsChar addr '@' then (none, none, none)
    else
      let localPart := beforeChar '@' addr
      if is_role_local localPart then (none, none, none)
      else
        let parts := split_local_simple localPart
        if parts.isEmpty then (none, none, none)
        else
          let first := cap (parts.headD "")
          let lastO := if parts.length = 1 then none else some (cap (parts.getLastD ""))
          let full := joinWith " " (([some first, lastO].filterMap id).filter (· ≠ ""))
          (some first, lastO, if full = "" then none else some full)

/-- The characters _simple_name_from_header_or_email strips from the
display name. -/
def nameStripChars : List Char :=
  [' ', '"', '\'', '|', ',', ';', '(', ')', '[', ']']

/-- _simple_name_from_header_or_email, with parseaddr injected. -/
def simple_name_from_header_or_email (caps : ExtCaps) (senderHeader : Option String)
    (fallbackEmail : Option String) : Option String × Option String × Option String :=
  match senderHeader with
  | none => name_from_email_simple fallbackEmail
  | some h =>
    if h = "" then name_from_email_simple fallbackEmail
    else
      let pa := caps.parseaddr h
      let disp := pyStripSet nameStripChars pa.1
      let viaDisp : Option (Option String × Option String × Option String) :=
        if looks_like_person disp then
          let toks := alphaToks disp
          if toks.isEmpty then none
          else
            let first := cap (toks.headD "")
            let lastO := if toks.length > 1 then some (cap (toks.getLastD "")) else none
            let full := joinWith " " (([some first, lastO].filterMap id).filter (· ≠ ""))
            some (some first, lastO, if full = "" then none else some full)
        else none
      match viaDisp with
      | some r => r
      | none =>
        let fbTruthy : Bool := match fallbackEmail with
          | some f => decide (f ≠ "")
          | none => false
        let fb2 := if fbTruthy = true then fallbackEmail
          else if pa.2 ≠ "" then some pa.2 else fallbackEmail
        name_from_email_simple fb2

/-! ### Document normalization -/

/-- Collapse consecutive duplicate lines. -/
def dedupConsecAux : Option String → List String → List String
  | _, [] => []
  | prev, x :: t =>
    if prev = some x then dedupConsecAux prev t
    else x :: dedupConsecAux (some x) t

def dedupConsec (l : List String) : List String :=
  dedupConsecAux none l

/-- _extract_links_and_text, with the HTML capabilities injected:
returns (validated link domains, cleaned text lines). -/
def extract_links_and_text (caps : ExtCaps) (raw : String) : List String × List String :=
  let linksDomains := (caps.anchorHrefs raw).filterMap fun href =>
    valid_domain caps (beforeChar '?' href)
  let text0 := caps.soupText raw
  let text := if pyStrip text0 = "" then caps.h2tText raw else text0
  let lines1 := ((splitLinesPy text).map pyStrip).filter fun line =>
    !(line = "") && !(line.data.length > 200) &&
    !(text_has line UNSUB_WORDS) && !(text_has line COPYRIGHT_WORDS) &&
    !(text_has line CURRENCY_HINTS && line.data.any Char.isDigit)
  let lines2 := lines1.filter fun line => !isMetadataLine line
  (linksDomains, dedupConsec lines2)

/-! ### Signature boundary detection -/

/-- Scan `k` indices downward starting at `j`. -/
def scanBackAux (lines : List String) (p : String → Bool) : Nat → Nat → Option Nat
  | 0, _ => none
  | k + 1, j => if p (lines.getD j "") then some j else scanBackAux lines p k (j - 1)

/-- Scan indices `i, i-1, ..., lo+1` (Python
`range(i, lo, -1)` over the line list) for the first line satisfying
`p`. -/
def scanBack (lines : List String) (p : String → Bool) (i lo : Nat) : Option Nat :=
  scanBackAux lines p (i - lo) i

/-- find_signature_start. -/
def find_signature_start (lines : List String) : Nat :=
  match scanBack lines isSigSeparator (lines.length - 1) (lines.length - 30) with
  | some i => i
  | none =>
    match scanBack lines (fun l => retest l courtesyRE) (lines.length - 1) (lines.length - 25) with
    | some i => i
    | none =>
      match scanBack lines (fun l => retest l emailRE || retest l phonePatRE)
          (lines.length - 1) (lines.length - 20) with
      | some i => i - 5
      | none => lines.length - 15

/-! ### Email extraction -/

/-- extract_emails. -/
def extract_emails (text : String) : List String :=
  dedupKeepFirst ((refindall text emailRE).filter fun e => !isDroppedEmail e)

/-! ### Phone extraction -/

/-- The continuation `\s*(\d\x7b1,5\x7d)\b` of the extension pattern after a
keyword: `\s*` must take the maximal space run (a digit must follow);
the greedy digit counter can only succeed by taking the entire digit run
(stopping earlier leaves a digit, a word character, under the `\b`), so
the match succeeds exactly when the digit run has length 1 to 5 and is
followed by a non-word character or the end. -/
def extDigits (rest : List Char) : Option (List Char) :=
  let rest2 := rest.dropWhile isSpaceChar
  let run := rest2.takeWhile Char.isDigit
  if run.length = 0 || run.length > 5 then none
  else
    match rest2.get? run.length with
    | some c => if isWordChar c then none else some run
    | none => some run

/-- Case-insensitive literal prefix over a character list. -/
def ciPfx (kw : String) (cs : List Char) : Bool :=
  listPfx kw.data (cs.map Char.toLower)

/-- Leftmost search of `(?:ext|x|extension)\s*(\d\x7b1,5\x7d)\b`
(re.IGNORECASE): positions left to right, alternatives in pattern
order at each position. -/
def searchExtFrom : List Char → Option (List Char)
  | [] => none
  | cs@(_ :: t) =>
    match (if ciPfx "ext" cs then extDigits (cs.drop 3) else none) with
    | some r => some r
    | none =>
      match (if ciPfx "x" cs then extDigits (cs.drop 1) else none) with
      | some r => some r
      | none =>
        match (if ciPfx "extension" cs then extDigits (cs.drop 9) else none) with
        | some r => some r
        | none => searchExtFrom t

/-- _normalize_phone. -/
def normalize_phone (s : String) : String × Option String :=
  let ext := (searchExtFrom s.data).map String.mk
  let t := pyStrip s
  let hasPlus := listPfx ['+'] t.data
  let digits := String.mk (digitsOf t)
  ((if hasPlus then "+" ++ digits else digits), ext)

/-- _looks_like_tracking_id. -/
def looks_like_tracking_id (original normalized : String) : Bool :=
  let sepInOriginal := original.data.any trackSepChar
  !(listPfx ['+'] (pyStrip original).data) && !sepInOriginal &&
    decide (normalized.data.length ≥ 12)

/-- `re.fullmatch(r'\+[1-9]\d\x7b6,14\x7d', s)`: a plus, a nonzero digit,
then 6 to 14 digits. -/
def e164Full (s : String) : Bool :=
  match s.data with
  | '+' :: d :: rest =>
    (d.isDigit && d ≠ '0') && rest.all Char.isDigit &&
      decide (6 ≤ rest.length) && decide (rest.length ≤ 14)
  | _ => false

/-- `re.fullmatch(r'\d\x7b7,12\x7d', s)`. -/
def bareFull (s : String) : Bool :=
  s.data.all Char.isDigit && decide (7 ≤ s.data.length) && decide (s.data.length ≤ 12)

/-- The per-candidate checks of extract_phones: none models `continue`,
some gives the final normalized value to record. -/
def phoneAccept (text original : String) : Option String :=
  let ne := normalize_phone original
  let norm := ne.1
  if norm = "" then none
  else if looks_like_tracking_id original norm then none
  else if (if listPfx ['+'] norm.data then !e164Full norm else !bareFull norm) then none
  else
    let start := Int.toNat (max 0 (pyFind text original - 6))
    let stop := min text.data.length (start + original.data.length + 12)
    if text_has (pySlice text start stop) CURRENCY_HINTS then none
    else some (match ne.2 with
      | none => norm
      | some e => norm ++ " x" ++ e)

/-- The filtering loop of extract_phones over the candidate chunks, with
the seen-set deduplication. -/
def phoneLoop (text : String) : List String → List (String × String) → List String
  | _, [] => []
  | seen, (original, _src) :: rest =>
    match phoneAccept text original with
    | none => phoneLoop text seen rest
    | some final =>
      if seen.contains final then phoneLoop text seen rest
      else final :: phoneLoop text (final :: seen) rest

/-- extract_phones. -/
def extract_phones (text : String) : List String :=
  let ctx := (refinditer text.data contextPhoneRE).filterMap fun t =>
    match grpStr text.data t.2.2 1 with
    | some c => some (c, "context")
    | none => (grpStr text.data t.2.2 2).map fun c => (c, "context")
  let candidates :=
    if ctx.isEmpty then
      (refinditer text.data loosePhoneRE).filterMap fun t =>
        (grpStr text.data t.2.2 1).map fun c => (c, "loose")
    else ctx
  phoneLoop text [] candidates

/-! ### Website extraction -/

/-- The domains validated from bare signature-line tokens (tokens with
a dot and no at-sign). -/
def websiteTextDomains (caps : ExtCaps) (lines : List String) : List String :=
  lines.flatMap fun line =>
    (splitWs line).filterMap fun word =>
      let token := clean_token word
      if !containsChar token '.' || containsChar token '@' then none
      else valid_domain caps token

/-- The deduplicated candidate pool of extract_websites: hyperlink
domains then bare-token domains. -/
def websitePool (caps : ExtCaps) (raw : String) (lines : List String) : List String :=
  dedupKeepFirst ((extract_links_and_text caps raw).1 ++ websiteTextDomains caps lines)

/-- extract_websites. -/
def extract_websites (caps : ExtCaps) (raw : String) (lines : List String)
    (senderDomain : Option String) : Option String :=
  prefer_website (websitePool caps raw lines) senderDomain

/-! ### Job-title extraction -/

/-- _clean_phrase of extract_job_title. -/
def clean_phrase (s : String) : String :=
  pyStripSet [',', '.', ';', ':', '—', '-', ' '] (pyStrip (String.mk (replWs2 s.data)))

/-- The skip test of extract_job_title: a line containing an email,
phone or URL shape, or shorter than 2 characters. -/
def jobSkipLine (line : String) : Bool :=
  retest line emailRE || retest line phonePatRE || retest line (websiteRE true) ||
    decide (line.data.length < 2)

/-- Capitalization normalization of a title token: keep short all-caps
acronyms, uppercase the first letter of the rest. -/
def normalizeTitleTok (tok : String) : String :=
  if isUpperPy tok && decide (tok.data.length ≤ 6) then tok else upperFirst tok

/-- Strict lexicographic comparison of (distance, span) scores. -/
def scoreLt (a b : Nat × Nat) : Bool :=
  a.1 < b.1 || (a.1 = b.1 && a.2 < b.2)

/-- The per-line body of extract_job_title: C-suite first, then the best
generic-title match with the punctuation/shortness scoring and the 2–60
character guard. -/
def titleOfLine (line : String) : Option String :=
  match research line.data csuiteRE with
  | some (s, e, _) =>
    let g0 := subStr line.data s e
    some (clean_phrase (if isUpperPy g0 then titlePy g0 else g0))
  | none =>
    let ms := refinditer line.data genericTitleRE
    let score : Nat × Nat × Caps → Nat × Nat := fun t =>
      let after := line.data.drop t.2.1
      let dist := match research after punctAfterRE with
        | some (ps, _, _) => ps
        | none => after.length
      (dist, t.2.1 - t.1)
    let best := ms.foldl (fun acc m =>
      match acc with
      | none => some m
      | some bm => if scoreLt (score m) (score bm) then some m else acc) none
    match best with
    | none => none
    | some m =>
      let phrase0 := clean_phrase (subStr line.data m.1 m.2.1)
      let phrase := joinWith " " ((splitWs phrase0).map normalizeTitleTok)
      if 2 ≤ phrase.data.length && phrase.data.length ≤ 60 then some phrase else none

/-- extract_job_title: scan the first 12 lines, skipping non-title
lines. -/
def extract_job_title (lines : List String) : Option String :=
  (lines.take 12).findSome? fun line =>
    if jobSkipLine line then none else titleOfLine line

/-! ### Company extraction -/

/-- _looks_like_email_or_url. -/
def looks_like_email_or_url (s : String) : Bool :=
  containsChar s '@' || retest s urlHintRE || retest s bareDomainRE

/-- _extract_company_from_line. -/
def extract_company_from_line (line : String) : Option String :=
  if text_has line COPYRIGHT_WORDS || text_has line CURRENCY_HINTS then none
  else if line.data.length > 120 || line.data.length < 3 then none
  else
    match research line.data companyRE with
    | some (_, _, cp) =>
      (grpStr line.data cp 1).map fun company0 =>
        pyStripSet [' ', ',', '.', '-'] (String.mk (replWs2 company0.data))
    | none =>
      let words := splitWs (pyStrip line)
      if 1 ≤ words.length && words.length ≤ 6 &&
          words.all (fun w => w.data.any Char.isAlpha) then
        if !(text_has line ["dear", "thanks", "regards", "hello", "team", "support"]) then
          some (pyStripSet [' ', '.', ',', '|', '-'] line)
        else none
      else none

/-- extract_company_name. -/
def extract_company_name (lines : List String) (senderDomain : Option String) :
    Option String :=
  match brand_from_registered_domain senderDomain with
  | some b => some b
  | none =>
    let tier2 := (lines.take 12).findSome? fun line =>
      if text_has line ["dear", "hello", "hi,", "regards", "thanks"] then none
      else if looks_like_email_or_url line then none
      else extract_company_from_line line
    match tier2 with
    | some c => some c
    | none =>
      (lines.take 12).findSome? fun line =>
        if looks_like_email_or_url line then none
        else
          let l := pyStrip line
          if text_has l ["team", "support", "helpdesk", "noreply", "no-reply"] then none
          else if text_has l ["copyright", "©", "all rights reserved"] then none
          else if text_has l CURRENCY_HINTS && l.data.any Char.isDigit then none
          else
            let words := splitWs l
            if 1 ≤ words.length && words.length ≤ 4 &&
                words.all (fun w => w.data.any Char.isAlpha) then
              some (joinWith " " (words.map upperFirst))
            else none

/-! ### Address extraction -/

/-- extract_address. -/
def extract_address (lines : List String) : Option String :=
  let addressLines := lines.foldl (fun acc line =>
    let lc := pyStrip line
    if retest lc emailRE || retest lc phonePatRE || retest lc (websiteRE false) then acc
    else if lc.data.length < 5 || lc.data.length > 120 then acc
    else if addressKeywordREs.any (fun kw => retest lc kw) then
      let cleaned0 := pyStrip (String.mk (lc.data.filter fun c =>
        !(c = '|' || c = '[' || c = ']' || c = '\x7B' || c = '\x7D')))
      let cleaned := String.mk (replWsAll cleaned0.data)
      if cleaned ≠ "" && !acc.contains cleaned then acc ++ [cleaned] else acc
    else acc) []
  if addressLines.isEmpty then none else some (joinWith ", " (addressLines.take 3))

/-! ### The signature composer -/

structure SignatureRecord where
  firstName : Option String
  lastName : Option String
  emailAddress : Option String
  companyName : Option String
  jobTitle : Option String
  phoneNumber : Option String
  address : Option String
  website : Option String
deriving Repr, DecidableEq

/-- The parsed sender header, when the header is present and truthy. -/
def senderPairOf (caps : ExtCaps) (hdr : Option String) : Option (String × String) :=
  match hdr with
  | some h => if h = "" then none else some (caps.parseaddr h)
  | none => none

/-- sender_email of extract_signature. -/
def senderEmailOf (caps : ExtCaps) (hdr : Option String) : Option String :=
  (senderPairOf caps hdr).map Prod.snd

/-- sender_domain of extract_signature. -/
def senderDomainOf (caps : ExtCaps) (hdr : Option String) : Option String :=
  match senderEmailOf caps hdr with
  | some se =>
    if se ≠ "" && containsChar se '@' then
      let rawDom := lowerStr (afterChar '@' se)
      let ext := caps.tldx rawDom
      if ext.2.2 = "" then none
      else some (joinWith "." ([ext.2.1, ext.2.2].filter (· ≠ "")))
    else none
  | none => none

/-- The cleaned lines of the raw body. -/
def cleanedLinesOf (caps : ExtCaps) (raw : String) : List String :=
  (extract_links_and_text caps raw).2

/-- The signature-block lines. -/
def sigLinesOf (caps : ExtCaps) (raw : String) : List String :=
  let lines := cleanedLinesOf caps raw
  lines.drop (find_signature_start lines)

/-- The signature-block text. -/
def sigTextOf (caps : ExtCaps) (raw : String) : String :=
  joinWith "\n" (sigLinesOf caps raw)

/-- email_addr of extract_signature: the header address when truthy,
else the first body-scanned email. -/
def emailAddrOf (caps : ExtCaps) (raw : String) (hdr : Option String) : Option String :=
  match senderEmailOf caps hdr with
  | some se => if se ≠ "" then some se else (extract_emails (sigTextOf caps raw)).head?
  | none => (extract_emails (sigTextOf caps raw)).head?

/-- extract_signature. -/
def extract_signature (caps : ExtCaps) (raw : String) (senderHeader : Option String) :
    SignatureRecord :=
  let names := simple_name_from_header_or_email caps senderHeader
    (emailAddrOf caps raw senderHeader)
  { firstName := names.1
    lastName := names.2.1
    emailAddress := emailAddrOf caps raw senderHeader
    companyName := extract_company_name (sigLinesOf caps raw) (senderDomainOf caps senderHeader)
    jobTitle := extract_job_title (sigLinesOf caps raw)
    phoneNumber := (extract_phones (sigTextOf caps raw)).head?
    address := extract_address (sigLinesOf caps raw)
    website := extract_websites caps raw (sigLinesOf caps raw) (senderDomainOf caps senderHeader) }

/-! ### The numeric-shape contract of the phone claim

These predicates formalize the claim wording (E.164 shape after an
optional extension suffix), to be proven of every extract_phones
result. -/

/-- A plus, a digit 1-9, then 6 to 14 further digits. -/
def plusShape (core : List Char) : Prop :=
  ∃ d rest, core = '+' :: d :: rest ∧ d.isDigit = true ∧ d ≠ '0' ∧
    (∀ c ∈ rest, c.isDigit = true) ∧ 6 ≤ rest.length ∧ rest.length ≤ 14

/-- Exactly 7 to 12 digits and no plus. -/
def bareShape (core : List Char) : Prop :=
  (∀ c ∈ core, c.isDigit = true) ∧ 7 ≤ core.length ∧ core.length ≤ 12

/-- The claim shape: after removing an optional " x<digits>" extension
suffix, the string is an E.164-shaped plus number or a bare 7-12 digit
number. -/
def phoneShapeSpec (r : String) : Prop :=
  ∃ core ext : List Char,
    (r.data = core ∨
      (r.data = core ++ (' ' :: 'x' :: ext) ∧ ext ≠ [] ∧ ∀ c ∈ ext, c.isDigit = true))
    ∧ (plusShape core ∨ bareShape core)

/-! ### A concrete capability fixture

The theorems below are quantified over every capability record; this
fixture instantiates them for the witnesses.  It implements the
capability contracts for plain-text bodies and simple hosts: parseaddr
splits a `Name <addr>` header, tldextract-style splitting takes the last
dot-separated label as the public suffix, and the HTML capabilities are
the identity on plain text (no markup, no anchors). -/

def fixtureParseaddr (s : String) : String × String :=
  if containsChar s '<' then
    (pyStripSet [' ', '"'] (beforeChar '<' s), beforeChar '>' (afterChar '<' s))
  else ("", pyStrip s)

def fixtureTldx (s : String) : String × String × String :=
  let h0 :=
    if listPfx "http://".data s.data then String.mk (s.data.drop 7)
    else if listPfx "https://".data s.data then String.mk (s.data.drop 8)
    else s
  let host := beforeChar '/' h0
  let labels := (splitEvery (fun c => c = '.') host.data []).map String.mk
  let n := labels.length
  if 2 ≤ n && labels.all (· ≠ "") then
    (joinWith "." (labels.take (n - 2)), labels.getD (n - 2) "", labels.getD (n - 1) "")
  else ("", "", "")

def fixtureCaps : ExtCaps where
  parseaddr := fixtureParseaddr
  anchorHrefs := fun _ => []
  soupText := fun s => s
  h2tText := fun s => s
  tldx := fixtureTldx

/-! ### Claim C1: header email priority -/

/-- C1: for every call of extract_signature, when the sender header is
present (truthy) and parseaddr yields a non-empty address, the returned
emailAddress is exactly that address, regardless of the body; when the
header is absent, empty, or parses to an empty address, emailAddress is
the first body-scanned email of the signature block (none when there is
none, since head? of the empty list is none). -/
theorem extract_signature_header_email_priority (caps : ExtCaps) (raw : String) :
    (∀ h : String, h ≠ "" → (caps.parseaddr h).2 ≠ "" →
      (extract_signature caps raw (some h)).emailAddress = some (caps.parseaddr h).2)
    ∧ ((extract_signature caps raw none).emailAddress
        = (extract_emails (sigTextOf caps raw)).head?)
    ∧ (∀ h : String, h ≠ "" → (caps.parseaddr h).2 = "" →
      (extract_signature caps raw (some h)).emailAddress
        = (extract_emails (sigTextOf caps raw)).head?)
    ∧ ((extract_signature caps raw (some "")).emailAddress
        = (extract_emails (sigTextOf caps raw)).head?) := by
  have hproj : ∀ hdr, (extract_signature caps raw hdr).emailAddress = emailAddrOf caps raw hdr :=
    fun _ => rfl
  refine ⟨?_, ?_, ?_, ?_⟩
  · intro h hne ha
    rw [hproj]
    simp only [emailAddrOf, senderEmailOf, senderPairOf, if_neg hne, Option.map_some']
    rw [if_pos ha]
  · rw [hproj]
    rfl
  · intro h hne ha
    rw [hproj]
    simp only [emailAddrOf, senderEmailOf, senderPairOf, if_neg hne, Option.map_some']
    rw [if_neg (by simp [ha])]
  · rw [hproj]
    rfl

theorem extract_signature_header_email_priority_witness :
    (extract_signature fixtureCaps "Reach me at bob@acme.com"
      (some "Jane Doe <jane@example.org>")).emailAddress = some "jane@example.org" :=
  (extract_signature_header_email_priority fixtureCaps "Reach me at bob@acme.com").1
    "Jane Doe <jane@example.org>" (by decide) (by decide)

/-! ### Claim C2: determinism -/

/-- C2: extract_signature is a pure function of its input over the
immutable configuration: two calls on the same raw body and sender
header (over the same capability record) yield identical records. -/
theorem extract_signature_deterministic (caps : ExtCaps) (raw : String) (hdr : Option String)
    (r₁ r₂ : SignatureRecord)
    (h₁ : r₁ = extract_signature caps raw hdr) (h₂ : r₂ = extract_signature caps raw hdr) :
    r₁ = r₂ :=
  h₁.trans h₂.symm

theorem extract_signature_deterministic_witness :
    extract_signature fixtureCaps "Hi" (some "Jane Doe <jane@example.org>")
      = extract_signature fixtureCaps "Hi" (some "Jane Doe <jane@example.org>") :=
  extract_signature_deterministic fixtureCaps "Hi" (some "Jane Doe <jane@example.org>")
    (extract_signature fixtureCaps "Hi" (some "Jane Doe <jane@example.org>"))
    (extract_signature fixtureCaps "Hi" (some "Jane Doe <jane@example.org>")) rfl rfl

/-! ### Claim C3: totality and extractor independence -/

/-- C3: extract_signature always returns a record (it is a total
function on every rawBody and senderHeader), and the record decomposes
fieldwise into the independent extractors: each field equals the output
of its own extractor on the signature block, so one extractor returning
no value never blocks another (and every extractor returns an Option,
degrading to none on failure to match). -/
theorem extract_signature_total_fieldwise (caps : ExtCaps) (raw : String) (hdr : Option String) :
    extract_signature caps raw hdr =
      { firstName := (simple_name_from_header_or_email caps hdr (emailAddrOf caps raw hdr)).1
        lastName := (simple_name_from_header_or_email caps hdr (emailAddrOf caps raw hdr)).2.1
        emailAddress := emailAddrOf caps raw hdr
        companyName := extract_company_name (sigLinesOf caps raw) (senderDomainOf caps hdr)
        jobTitle := extract_job_title (sigLinesOf caps raw)
        phoneNumber := (extract_phones (sigTextOf caps raw)).head?
        address := extract_address (sigLinesOf caps raw)
        website := extract_websites caps raw (sigLinesOf caps raw) (senderDomainOf caps hdr) } :=
  rfl

/-! ### Claim C4: brand derivation from the sender domain -/

/-- C4 counterexample: the claim says that whenever a sender registered
domain is known, companyName is computed from that domain alone,
independent of the body.  For the known sender domain 123.com the
digit-stripping leaves an empty label, brand derivation yields none, and
extract_company_name falls through to the body: with body line
"Acme Inc" it returns "Acme Inc", with no body lines it returns none, so
the result does depend on the body although the domain is known. -/
theorem extract_company_name_digit_domain_counterexample :
    brand_from_registered_domain (some "123.com") = none
    ∧ extract_company_name ["Acme Inc"] (some "123.com") = some "Acme Inc"
    ∧ extract_company_name [] (some "123.com") = none := by
  exact ⟨rfl, rfl, rfl⟩

/-- C4 amended: whenever the brand derived from the sender registered
domain is non-empty, companyName equals that brand, independent of the
body content; in particular sender domain trading-view.com yields
companyName "TradingView" on every call (the derivation takes the label
before the first dot, strips digits, splits on hyphen and underscore,
drops generic-infrastructure tokens when more than one part remains,
and concatenates the capitalized parts). -/
theorem extract_company_name_brand_preferred :
    (∀ (lines : List String) (d b : String),
      brand_from_registered_domain (some d) = some b →
      extract_company_name lines (some d) = some b)
    ∧ (∀ lines : List String,
      extract_company_name lines (some "trading-view.com") = some "TradingView") := by
  constructor
  · intro lines d b hb
    unfold extract_company_name
    rw [hb]
  · intro lines
    unfold extract_company_name
    rfl

theorem extract_company_name_brand_preferred_witness :
    extract_company_name ["Acme Inc"] (some "trading-view.com") = some "TradingView" :=
  extract_company_name_brand_preferred.1 ["Acme Inc"] "trading-view.com" "TradingView" rfl

/-! ### Claim C6: tier-1 boundary detection -/

theorem scanBackAux_finds (lines : List String) (p : String → Bool) :
    ∀ (k j i : Nat), i ≤ j → j < i + k →
    p (lines.getD i "") = true →
    (∀ m, i < m → m ≤ j → p (lines.getD m "") = false) →
    scanBackAux lines p k j = some i := by
  intro k
  induction k with
  | zero => intro j i h1 h2 _ _; omega
  | succ k ih =>
    intro j i h1 h2 hp hmax
    rcases Nat.eq_or_lt_of_le h1 with he | hlt
    · subst he
      simp only [scanBackAux, if_pos hp]
    · have hj : p (lines.getD j "") = false := hmax j hlt (Nat.le_refl j)
      simp only [scanBackAux, hj, Bool.false_eq_true, if_false]
      exact ih (j - 1) i (by omega) (by omega) hp (fun m hm1 hm2 => hmax m hm1 (by omega))

/-- C6 counterexample: the claim says that whenever any of the last 30
lines is exactly a separator shape, find_signature_start returns the
highest such index.  In a 16-line document whose line 0 is the separator
"--" and whose other 15 lines are plain text, line 0 is among the last
30 lines and is the only separator, yet the detector returns 1 (the
Python loop `range(len-1, max(0, len-30), -1)` never visits its stop
index, so index 0 is skipped by every tier and the fixed-window fallback
`len - 15` answers). -/
theorem find_signature_start_window_counterexample :
    find_signature_start ("--" :: List.replicate 15 "q") = 1
    ∧ isSigSeparator (("--" :: List.replicate 15 "q").getD 0 "") = true
    ∧ isSigSeparator (("--" :: List.replicate 15 "q").getD 1 "") = false := by
  exact ⟨by decide, by decide, by decide⟩

/-- C6 amended: tier 1 scans the lines at indices strictly above
`length - 30` (the Python range never reaches its stop index): whenever
some line at an index `i` with `length - 30 < i < length` is exactly a
separator shape and no higher index is, find_signature_start returns
`i`; in particular on ["Hi,", "See attached.", "--", "John Smith",
"Acme Inc", "john@acme.com"] it returns 2, the index of "--", and not a
later-tier result. -/
theorem find_signature_start_tier1_highest (lines : List String) (i : Nat)
    (hlt : i < lines.length) (hlo : lines.length - 30 < i)
    (hsep : isSigSeparator (lines.getD i "") = true)
    (hmax : ∀ j, i < j → j < lines.length → isSigSeparator (lines.getD j "") = false) :
    find_signature_start lines = i := by
  have h1 : scanBack lines isSigSeparator (lines.length - 1) (lines.length - 30) = some i := by
    unfold scanBack
    exact scanBackAux_finds lines isSigSeparator _ _ i (by omega) (by omega) hsep
      (fun m hm1 hm2 => hmax m hm1 (by omega))
  unfold find_signature_start
  rw [h1]

theorem find_signature_start_tier1_highest_witness :
    find_signature_start ["Hi,", "See attached.", "--", "John Smith", "Acme Inc",
      "john@acme.com"] = 2 :=
  find_signature_start_tier1_highest _ 2 (by decide) (by decide) (by decide)
    (by
      intro j hj1 hj2
      have h6 : j < 6 := hj2
      interval_cases j <;> decide)

/-! ### Claim C10: currency hints reject domains -/

theorem listPfx_iff (n : List Char) : ∀ h, listPfx n h = true ↔ ∃ t, h = n ++ t := by
  induction n with
  | nil => intro h; simp [listPfx]
  | cons a as ih =>
    intro h
    cases h with
    | nil => simp [listPfx]
    | cons b bs =>
      simp only [listPfx, Bool.and_eq_true, decide_eq_true_eq, ih, List.cons_append,
        List.cons.injEq]
      constructor
      · rintro ⟨hab, t, ht⟩
        exact ⟨t, hab.symm, ht⟩
      · rintro ⟨t, hab, ht⟩
        exact ⟨hab.symm, t, ht⟩

theorem listOccurs_iff (n : List Char) : ∀ h, listOccurs n h = true ↔ ∃ u v, h = u ++ n ++ v := by
  intro h
  induction h with
  | nil =>
    simp only [listOccurs, listPfx_iff]
    constructor
    · rintro ⟨t, ht⟩
      rcases List.append_eq_nil.mp ht.symm with ⟨hn, hts⟩
      exact ⟨[], [], by simp [hn, hts]⟩
    · rintro ⟨u, v, huv⟩
      rcases List.append_eq_nil.mp huv.symm with ⟨h1, h2⟩
      rcases List.append_eq_nil.mp h1 with ⟨h3, h4⟩
      exact ⟨[], by simp [h4]⟩
  | cons c t ih =>
    simp only [listOccurs, Bool.or_eq_true, listPfx_iff, ih]
    constructor
    · rintro (⟨s, hs⟩ | ⟨u, v, huv⟩)
      · exact ⟨[], s, by simp [hs]⟩
      · exact ⟨c :: u, v, by simp [huv]⟩
    · rintro ⟨u, v, huv⟩
      cases u with
      | nil => exact Or.inl ⟨v, by simpa using huv⟩
      | cons x u₂ =>
        rcases List.cons.injEq .. ▸ huv with ⟨hx, ht⟩
        exact Or.inr ⟨u₂, v, by simpa using ht⟩

theorem listOccurs_rev (n l : List Char) :
    listOccurs n.reverse l.reverse = true ↔ listOccurs n l = true := by
  simp only [listOccurs_iff]
  constructor
  · rintro ⟨u, v, huv⟩
    refine ⟨v.reverse, u.reverse, ?_⟩
    have := congrArg List.reverse huv
    simpa [List.append_assoc] using this
  · rintro ⟨u, v, huv⟩
    refine ⟨v.reverse, u.reverse, ?_⟩
    simp [huv, List.append_assoc]

theorem listOccurs_of_append (n1 n2 l : List Char) (h : listOccurs (n1 ++ n2) l = true) :
    listOccurs n1 l = true := by
  rw [listOccurs_iff] at h ⊢
  rcases h with ⟨u, v, huv⟩
  exact ⟨u, n2 ++ v, by simp [huv, List.append_assoc]⟩

theorem occurs_map_dropWhile (n : List Char) (g : Char → Char) (p : Char → Bool) :
    ∀ l : List Char, listOccurs n (l.map g) = true → n ≠ [] →
    (∀ c, p c = true → g c ∉ n) →
    listOccurs n ((l.dropWhile p).map g) = true := by
  intro l
  induction l with
  | nil => intro hocc _ _; simpa using hocc
  | cons c t ih =>
    intro hocc hn hp
    by_cases hc : p c = true
    · rw [List.dropWhile_cons_of_pos hc]
      apply ih ?_ hn hp
      rcases n with _ | ⟨n0, n1⟩
      · exact absurd rfl hn
      · simp only [List.map_cons, listOccurs, Bool.or_eq_true] at hocc
        rcases hocc with hpfx | hrest
        · simp only [listPfx, Bool.and_eq_true, decide_eq_true_eq] at hpfx
          exact absurd (hpfx.1 ▸ List.mem_cons_self n0 n1) (hp c hc)
        · exact hrest
    · rw [List.dropWhile_cons_of_neg hc]
      simpa using hocc

theorem occurs_map_stripEdges (n : List Char) (g : Char → Char) (p : Char → Bool)
    (l : List Char) (hocc : listOccurs n (l.map g) = true) (hn : n ≠ [])
    (hp : ∀ c, p c = true → g c ∉ n) :
    listOccurs n ((stripEdges p l).map g) = true := by
  have hnr : n.reverse ≠ [] := by simpa using hn
  have hpr : ∀ c, p c = true → g c ∉ n.reverse := fun c hc => by
    rw [List.mem_reverse]; exact hp c hc
  have s1 : listOccurs n ((l.dropWhile p).map g) = true :=
    occurs_map_dropWhile n g p l hocc hn hp
  have s2 : listOccurs n.reverse ((l.dropWhile p).reverse.map g) = true := by
    rw [List.map_reverse]
    exact (listOccurs_rev n ((l.dropWhile p).map g)).mpr s1
  have s3 : listOccurs n.reverse (((l.dropWhile p).reverse.dropWhile p).map g) = true :=
    occurs_map_dropWhile n.reverse g p ((l.dropWhile p).reverse) s2 hnr hpr
  rw [stripEdges, List.map_reverse]
  rw [show n = n.reverse.reverse by simp]
  exact (listOccurs_rev n.reverse (((l.dropWhile p).reverse.dropWhile p).map g)).mpr s3

/-- The characters of every currency hint (with "rs." weakened to its
substring "rs") survive _clean_token stripping and ASCII lowercasing. -/
theorem cleanChars_lower_not_hint (c : Char) (hc : cleanTokenChars.contains c = true) :
    Char.toLower c ∉ (['r', 's', '₹', '$', 'u', 'd', 'i', 'n', 'e'] : List Char) := by
  have hmem : c ∈ cleanTokenChars := by simpa using hc
  fin_cases hmem <;> decide

/-- Stripping _clean_token characters preserves the presence of a
currency hint in the lowercased token. -/
theorem text_has_clean_token (token : String)
    (hh : text_has token CURRENCY_HINTS = true) :
    text_has (clean_token token) CURRENCY_HINTS = true := by
  have hsub : ∀ w : String, w ∈ CURRENCY_HINTS → w ≠ "rs." →
      listOccurs w.data ((lowerStr token).data) = true →
      text_has (clean_token token) CURRENCY_HINTS = true := by
    intro w hw hwne hocc
    have hwchars : ∀ x ∈ w.data, x ∈ (['r', 's', '₹', '$', 'u', 'd', 'i', 'n', 'e'] : List Char) := by
      simp only [CURRENCY_HINTS, List.mem_cons, List.not_mem_nil, or_false] at hw
      rcases hw with h | h | h | h | h | h | h <;> subst h <;> first | decide | exact absurd rfl hwne
    have hwne2 : w.data ≠ [] := by
      simp only [CURRENCY_HINTS, List.mem_cons, List.not_mem_nil, or_false] at hw
      rcases hw with h | h | h | h | h | h | h <;> subst h <;> decide
    have hp : ∀ c, (fun c => cleanTokenChars.contains c) c = true → Char.toLower c ∉ w.data :=
      fun c hcc hmem => cleanChars_lower_not_hint c hcc (hwchars _ hmem)
    have : listOccurs w.data ((stripEdges (fun c => cleanTokenChars.contains c) token.data).map Char.toLower) = true :=
      occurs_map_stripEdges w.data Char.toLower _ token.data hocc hwne2 hp
    apply List.any_eq_true.mpr
    exact ⟨w, hw, this⟩
  rcases List.any_eq_true.mp hh with ⟨w, hw, hoccw⟩
  by_cases hrs : w = "rs."
  · subst hrs
    have hocc2 : listOccurs ("rs").data ((lowerStr token).data) = true :=
      listOccurs_of_append ("rs").data ['.'] _ hoccw
    exact hsub "rs" (by decide) (by decide) hocc2
  · exact hsub w hw hrs hoccw

/-- C10: for every token whose lowercased form contains one of the
currency hint substrings, _valid_domain returns none; hence such a
registered domain can never be contributed to the LinkSet or the website
candidate pool, whose members all arise from successful _valid_domain
calls. -/
theorem valid_domain_currency_rejection (caps : ExtCaps) (token : String)
    (hh : text_has token CURRENCY_HINTS = true) :
    valid_domain caps token = none := by
  have h2 := text_has_clean_token token hh
  by_cases h1 : (clean_token token = "" || containsChar (clean_token token) '@') = true
  · simp only [valid_domain, h1, if_true]
  · simp only [valid_domain, h1, Bool.false_eq_true, if_false, h2, if_true]

theorem valid_domain_currency_rejection_witness :
    valid_domain fixtureCaps "cars.com" = none :=
  valid_domain_currency_rejection fixtureCaps "cars.com" (by decide)

/-! ### Claim C5: the phone numeric-shape contract -/

theorem strData_append (a b : String) : (a ++ b).data = a.data ++ b.data := by
  cases a; cases b; rfl

theorem e164Full_plusShape (s : String) (h : e164Full s = true) : plusShape s.data := by
  unfold e164Full at h
  split at h
  case h_2 => exact absurd h (by simp)
  case h_1 d rest heq =>
    simp only [Bool.and_eq_true, decide_eq_true_eq, List.all_eq_true] at h
    exact ⟨d, rest, heq, h.1.1.1.1, h.1.1.1.2, fun c hc => h.1.1.2 c hc, h.1.2, h.2⟩

theorem bareFull_bareShape (s : String) (h : bareFull s = true) : bareShape s.data := by
  unfold bareFull at h
  simp only [Bool.and_eq_true, decide_eq_true_eq, List.all_eq_true] at h
  exact ⟨fun c hc => h.1.1 c hc, h.1.2, h.2⟩

theorem extDigits_digits (rest r : List Char) (h : extDigits rest = some r) :
    r ≠ [] ∧ ∀ c ∈ r, c.isDigit = true := by
  simp only [extDigits] at h
  split at h
  · exact absurd h (by simp)
  case isFalse hcond =>
    simp only [Bool.or_eq_true, decide_eq_true_eq, not_or] at hcond
    have hrun : r = (rest.dropWhile isSpaceChar).takeWhile Char.isDigit → 
        r ≠ [] ∧ ∀ c ∈ r, c.isDigit = true := by
      intro heq
      subst heq
      refine ⟨?_, fun c hc => List.mem_takeWhile_imp hc⟩
      intro hnil
      exact hcond.1 (by rw [hnil]; rfl)
    split at h
    · split at h
      · exact absurd h (by simp)
      · exact hrun (Option.some.inj h).symm
    · exact hrun (Option.some.inj h).symm

theorem searchExt_digits : ∀ (cs r : List Char), searchExtFrom cs = some r →
    r ≠ [] ∧ ∀ c ∈ r, c.isDigit = true := by
  intro cs
  induction cs with
  | nil => intro r h; simp [searchExtFrom] at h
  | cons c t ih =>
    intro r h
    rw [searchExtFrom] at h
    split at h
    case h_1 r1 heq1 =>
      split at heq1
      · cases h; exact extDigits_digits _ _ heq1
      · exact absurd heq1 (by simp)
    case h_2 =>
      split at h
      case h_1 r2 heq2 =>
        split at heq2
        · cases h; exact extDigits_digits _ _ heq2
        · exact absurd heq2 (by simp)
      case h_2 =>
        split at h
        case h_1 r3 heq3 =>
          split at heq3
          · cases h; exact extDigits_digits _ _ heq3
          · exact absurd heq3 (by simp)
        case h_2 => exact ih r h

theorem normalize_phone_ext (s e : String) (h : (normalize_phone s).2 = some e) :
    e.data ≠ [] ∧ ∀ c ∈ e.data, c.isDigit = true := by
  unfold normalize_phone at h
  simp only [Option.map_eq_some'] at h
  rcases h with ⟨r, hr, hmk⟩
  rcases searchExt_digits s.data r hr with ⟨hne, hdig⟩
  subst hmk
  exact ⟨fun hnil => hne (by simpa using hnil), hdig⟩

theorem phoneFinalShape (original final : String)
    (h : some (match (normalize_phone original).2 with
      | none => (normalize_phone original).1
      | some e => (normalize_phone original).1 ++ " x" ++ e) = some final)
    (hshape : plusShape (normalize_phone original).1.data ∨
      bareShape (normalize_phone original).1.data) :
    phoneShapeSpec final := by
  rcases hext : (normalize_phone original).2 with _ | e
  · rw [hext] at h
    have hf : final = (normalize_phone original).1 := (Option.some.inj h).symm
    exact ⟨(normalize_phone original).1.data, [], Or.inl (by rw [hf]), hshape⟩
  · rw [hext] at h
    have hf : final = (normalize_phone original).1 ++ " x" ++ e := (Option.some.inj h).symm
    rcases normalize_phone_ext original e hext with ⟨hne, hdig⟩
    refine ⟨(normalize_phone original).1.data, e.data, Or.inr ⟨?_, hne, hdig⟩, hshape⟩
    rw [hf, strData_append, strData_append, List.append_assoc]
    rfl

theorem phoneAccept_shape (text original final : String)
    (h : phoneAccept text original = some final) : phoneShapeSpec final := by
  simp only [phoneAccept] at h
  split at h
  · exact absurd h (by simp)
  split at h
  · exact absurd h (by simp)
  split at h
  case isTrue hplus =>
    split at h
    · exact absurd h (by simp)
    case isFalse hval =>
      split at h
      · exact absurd h (by simp)
      have hshape : plusShape (normalize_phone original).1.data :=
        e164Full_plusShape _ (by
          revert hval
          cases e164Full (normalize_phone original).1 <;> simp)
      exact phoneFinalShape original final h (Or.inl hshape)
  case isFalse hplus =>
    split at h
    · exact absurd h (by simp)
    case isFalse hval =>
      split at h
      · exact absurd h (by simp)
      have hshape : bareShape (normalize_phone original).1.data :=
        bareFull_bareShape _ (by
          revert hval
          cases bareFull (normalize_phone original).1 <;> simp)
      exact phoneFinalShape original final h (Or.inr hshape)

theorem phoneLoop_shape (text : String) :
    ∀ (cands : List (String × String)) (seen : List String) (r : String),
      r ∈ phoneLoop text seen cands → phoneShapeSpec r := by
  intro cands
  induction cands with
  | nil => intro seen r h; simp [phoneLoop] at h
  | cons cand rest ih =>
    rcases cand with ⟨original, src⟩
    intro seen r h
    rw [phoneLoop] at h
    split at h
    · exact ih _ r h
    case h_2 final heq =>
      split at h
      · exact ih _ r h
      · rcases List.mem_cons.mp h with he | hrest
        · subst he
          exact phoneAccept_shape text original r heq
        · exact ih _ r hrest

/-- C5: every string returned by extract_phones satisfies the numeric
shape contract (after removing an optional " x<digits>" extension
suffix it is either an E.164-shaped plus number with 7-15 digits or a
bare run of exactly 7-12 digits); the chunk "+1 650 555 0100" is
returned normalized as "+16505550100", and a bare 20-digit run with no
separators and no plus is never returned. -/
theorem extract_phones_shape :
    (∀ (text r : String), r ∈ extract_phones text → phoneShapeSpec r)
    ∧ extract_phones "+1 650 555 0100" = ["+16505550100"]
    ∧ extract_phones "12345678901234567890" = [] := by
  refine ⟨?_, by rfl, by rfl⟩
  intro text r hr
  unfold extract_phones at hr
  exact phoneLoop_shape text _ _ r hr

theorem extract_phones_shape_witness :
    "+16505550100" ∈ extract_phones "+1 650 555 0100"
    ∧ phoneShapeSpec "+16505550100" := by
  have hm : "+16505550100" ∈ extract_phones "+1 650 555 0100" := by
    rw [extract_phones_shape.2.1]
    exact List.mem_singleton.mpr rfl
  exact ⟨hm, extract_phones_shape.1 "+1 650 555 0100" "+16505550100" hm⟩

/-! ### Claim C7: website selection policy -/

theorem webKeyLe_refl (a : String) : webKeyLe a a :=
  Or.inr ⟨rfl, le_refl a⟩

theorem mem_dedupKeepFirstAux : ∀ (l seen : List String) (x : String),
    x ∈ dedupKeepFirstAux seen l ↔ (x ∈ l ∧ x ∉ seen) := by
  intro l
  induction l with
  | nil => intro seen x; simp [dedupKeepFirstAux]
  | cons y t ih =>
    intro seen x
    simp only [dedupKeepFirstAux]
    split
    case isTrue hy =>
      rw [ih]
      simp only [List.mem_cons]
      constructor
      · rintro ⟨hx, hns⟩
        exact ⟨Or.inr hx, hns⟩
      · rintro ⟨he | hx, hns⟩
        · subst he
          exact absurd (List.elem_iff.mp hy) hns
        · exact ⟨hx, hns⟩
    case isFalse hy =>
      simp only [List.mem_cons, ih, List.mem_cons]
      constructor
      · rintro (he | ⟨hx, hns⟩)
        · subst he
          exact ⟨Or.inl rfl, fun hcon => hy (List.elem_iff.mpr hcon)⟩
        · refine ⟨Or.inr hx, fun hc => hns (Or.inr hc)⟩
      · rintro ⟨he | hx, hns⟩
        · exact Or.inl he
        · by_cases hxy : x = y
          · exact Or.inl hxy
          · exact Or.inr ⟨hx, fun hc => (hc.elim hxy hns)⟩

theorem mem_dedupKeepFirst (l : List String) (x : String) :
    x ∈ dedupKeepFirst l ↔ x ∈ l := by
  rw [dedupKeepFirst, mem_dedupKeepFirstAux]
  simp

theorem dedupKeepFirst_ne_nil (l : List String) (h : l ≠ []) : dedupKeepFirst l ≠ [] := by
  obtain ⟨x, hx⟩ := List.exists_mem_of_ne_nil l h
  intro hnil
  have hmem := (mem_dedupKeepFirst l x).mpr hx
  rw [hnil] at hmem
  exact absurd hmem (List.not_mem_nil x)

/-- The head of the sorted deduplicated pool is a member and a
(length, lexicographic) minimum. -/
theorem sortedPick_spec (norm : List String) (hne : norm ≠ []) :
    ∃ m, ((dedupKeepFirst norm).insertionSort webKeyLe).head? = some m ∧
      m ∈ norm ∧ ∀ c ∈ norm, webKeyLe m c := by
  have hd : dedupKeepFirst norm ≠ [] := dedupKeepFirst_ne_nil norm hne
  have hs : (dedupKeepFirst norm).insertionSort webKeyLe ≠ [] := by
    intro hnil
    obtain ⟨x, hx⟩ := List.exists_mem_of_ne_nil _ hd
    have hmem := (List.mem_insertionSort webKeyLe).mpr hx
    rw [hnil] at hmem
    exact absurd hmem (List.not_mem_nil x)
  obtain ⟨m, t, heq⟩ := List.exists_cons_of_ne_nil hs
  have hsorted : List.Sorted webKeyLe (m :: t) := by
    rw [← heq]
    exact List.sorted_insertionSort webKeyLe (dedupKeepFirst norm)
  refine ⟨m, by rw [heq]; rfl, ?_, ?_⟩
  · have : m ∈ (dedupKeepFirst norm).insertionSort webKeyLe := by
      rw [heq]; exact List.mem_cons_self m t
    exact (mem_dedupKeepFirst norm m).mp ((List.mem_insertionSort webKeyLe).mp this)
  · intro c hc
    have hc2 : c ∈ m :: t := by
      rw [← heq]
      exact (List.mem_insertionSort webKeyLe).mpr ((mem_dedupKeepFirst norm c).mpr hc)
    rcases List.mem_cons.mp hc2 with he | ht
    · exact he ▸ webKeyLe_refl m
    · exact List.rel_of_sorted_cons hsorted c ht

/-- The selection policy of _prefer_website over an arbitrary candidate
list. -/
theorem prefer_website_policy (candidates : List String) (sd : Option String) :
    (prefer_website candidates sd = none ↔ candidates = [])
    ∧ (∀ d, sd = some d → d ≠ "" →
        (candidates.map lowerStr).contains (lowerStr d) = true →
        prefer_website candidates sd = some (lowerStr d))
    ∧ (candidates ≠ [] →
        (∀ d, sd = some d → d ≠ "" →
          (candidates.map lowerStr).contains (lowerStr d) = false) →
        ∃ m, prefer_website candidates sd = some m ∧ m ∈ candidates.map lowerStr ∧
          ∀ c ∈ candidates.map lowerStr, webKeyLe m c) := by
  by_cases hc : candidates.isEmpty = true
  · have hnil : candidates = [] := List.isEmpty_iff.mp hc
    subst hnil
    refine ⟨by simp [prefer_website], ?_, ?_⟩
    · intro d _ _ hcontains
      simp at hcontains
    · intro hne _
      exact absurd rfl hne
  · have hne : candidates ≠ [] := fun h => hc (by rw [h]; rfl)
    have hnorm : candidates.map lowerStr ≠ [] := by
      intro h
      exact hne (List.map_eq_nil_iff.mp h)
    obtain ⟨m, hm, hmem, hmin⟩ := sortedPick_spec (candidates.map lowerStr) hnorm
    cases sd with
    | none =>
      refine ⟨?_, ?_, ?_⟩
      · rw [prefer_website, if_neg hc, hm]
        simp [hne]
      · intro d hd
        exact absurd hd (by simp)
      · intro _ _
        exact ⟨m, by rw [prefer_website, if_neg hc, hm], hmem, hmin⟩
    | some s =>
      by_cases hhit : (decide (s ≠ "") && (candidates.map lowerStr).contains (lowerStr s)) = true
      · have hres : prefer_website candidates (some s) = some (lowerStr s) := by
          rw [prefer_website, if_neg hc]
          simp only [hhit, if_true]
        rcases Bool.and_eq_true .. ▸ hhit with ⟨hs1, hs2⟩
        refine ⟨by rw [hres]; simp [hne], ?_, ?_⟩
        · intro d hd _ _
          cases Option.some.inj hd
          exact hres
        · intro _ hno
          have := hno s rfl (by simpa using hs1)
          rw [this] at hs2
          exact absurd hs2 (by simp)
      · have hres : prefer_website candidates (some s) =
            ((dedupKeepFirst (candidates.map lowerStr)).insertionSort webKeyLe).head? := by
          rw [prefer_website, if_neg hc]
          simp only [hhit, Bool.false_eq_true, if_false]
        refine ⟨by rw [hres, hm]; simp [hne], ?_, ?_⟩
        · intro d hd hdne hdcon
          cases Option.some.inj hd
          exact absurd (Bool.and_eq_true .. ▸ ⟨by simpa using hdne, hdcon⟩) hhit
        · intro _ _
          exact ⟨m, by rw [hres, hm], hmem, hmin⟩

/-- C7: extract_websites returns none exactly when the candidate pool
(hyperlink-derived validated domains plus bare-token validated domains)
is empty; it returns the lowercased senderDomain whenever that is
truthy and present in the (lowercased) pool; otherwise it returns the
pool member with the shortest registered-domain string, ties broken
alphabetically. -/
theorem extract_websites_selection_policy (caps : ExtCaps) (raw : String)
    (lines : List String) (sd : Option String) :
    (extract_websites caps raw lines sd = none ↔ websitePool caps raw lines = [])
    ∧ (∀ d, sd = some d → d ≠ "" →
        ((websitePool caps raw lines).map lowerStr).contains (lowerStr d) = true →
        extract_websites caps raw lines sd = some (lowerStr d))
    ∧ (websitePool caps raw lines ≠ [] →
        (∀ d, sd = some d → d ≠ "" →
          ((websitePool caps raw lines).map lowerStr).contains (lowerStr d) = false) →
        ∃ m, extract_websites caps raw lines sd = some m
          ∧ m ∈ (websitePool caps raw lines).map lowerStr
          ∧ ∀ c ∈ (websitePool caps raw lines).map lowerStr, webKeyLe m c) := by
  have he : extract_websites caps raw lines sd
      = prefer_website (websitePool caps raw lines) sd := rfl
  rw [he]
  exact prefer_website_policy (websitePool caps raw lines) sd

theorem extract_websites_selection_policy_witness :
    extract_websites fixtureCaps "see acme.com and partner.example"
      ["see acme.com and partner.example"] (some "acme.com") = some "acme.com" :=
  (extract_websites_selection_policy fixtureCaps "see acme.com and partner.example"
    ["see acme.com and partner.example"] (some "acme.com")).2.1 "acme.com" rfl
    (by decide) (by decide)

/-! ### Claim C8: job-title line scanning -/

set_option maxRecDepth 100000 in
/-- C8 counterexample: the claim says a line over 80 characters is
skipped and never contributes the returned jobTitle.  The skip test of
extract_job_title is email, phone or URL shape, or fewer than 2
characters; it has no length ceiling, so an 83-character line with no
digits, at-sign or dot contributes "Senior Product Manager". -/
theorem extract_job_title_long_line_counterexample :
    extract_job_title ["Senior Product Manager " ++ String.mk (List.replicate 60 'a')]
      = some "Senior Product Manager"
    ∧ 80 < ("Senior Product Manager " ++ String.mk (List.replicate 60 'a')).length := by
  exact ⟨by rfl, by decide⟩

/-- C8 amended: the job-title extractor examines only the first 12
signature-block lines, and it skips any line containing an email, phone
or URL shape or shorter than 2 characters; every returned jobTitle comes
from a non-skipped line among those first 12 (there is no
80-character line limit in the code). -/
theorem extract_job_title_first12_skip :
    (∀ lines : List String, extract_job_title lines = extract_job_title (lines.take 12))
    ∧ (∀ (lines : List String) (t : String), extract_job_title lines = some t →
        ∃ l ∈ lines.take 12, jobSkipLine l = false ∧ titleOfLine l = some t) := by
  constructor
  · intro lines
    simp [extract_job_title, List.take_take]
  · intro lines t h
    unfold extract_job_title at h
    obtain ⟨l, hl, hfl⟩ := List.exists_of_findSome?_eq_some h
    by_cases hskip : jobSkipLine l = true
    · rw [if_pos hskip] at hfl
      exact absurd hfl (by simp)
    · rw [if_neg hskip] at hfl
      exact ⟨l, hl, by revert hskip; cases jobSkipLine l <;> simp, hfl⟩

theorem extract_job_title_first12_skip_witness :
    extract_job_title ["x", "CEO"] = extract_job_title (["x", "CEO"].take 12)
    ∧ ∃ l ∈ ["x", "CEO"].take 12, jobSkipLine l = false ∧ titleOfLine l = some "Ceo" :=
  ⟨extract_job_title_first12_skip.1 ["x", "CEO"],
   extract_job_title_first12_skip.2 ["x", "CEO"] "Ceo" (by rfl)⟩

/-! ### Claim C9: person name from the header display name -/

theorem map_cap_getLast (l : List String) (hne : l ≠ []) :
    (l.getLast?).map cap = some (cap (l.getLastD "")) := by
  cases hl : l.getLast? with
  | none => exact absurd (List.getLast?_eq_none_iff.mp hl) hne
  | some x =>
    rw [List.getLastD_eq_getLast?, hl]
    rfl

/-- When the header is truthy and its stripped display name looks like
a person, the name triple comes from the alphabetic display tokens:
Title-cased first and last. -/
theorem simple_name_display (caps : ExtCaps) (h : String) (fe : Option String)
    (hne : h ≠ "")
    (hperson : looks_like_person (pyStripSet nameStripChars (caps.parseaddr h).1) = true) :
    (simple_name_from_header_or_email caps (some h) fe).1
      = ((alphaToks (pyStripSet nameStripChars (caps.parseaddr h).1)).head?).map cap
    ∧ (simple_name_from_header_or_email caps (some h) fe).2.1
      = ((alphaToks (pyStripSet nameStripChars (caps.parseaddr h).1)).getLast?).map cap := by
  have hlen : 2 ≤ (alphaToks (pyStripSet nameStripChars (caps.parseaddr h).1)).length := by
    unfold looks_like_person at hperson
    by_cases hl : (alphaToks (pyStripSet nameStripChars (caps.parseaddr h).1)).length < 2
    · rw [if_pos hl] at hperson
      exact absurd hperson (by simp)
    · omega
  obtain ⟨t0, t1, rest, htoks⟩ :
      ∃ t0 t1 rest, alphaToks (pyStripSet nameStripChars (caps.parseaddr h).1)
        = t0 :: t1 :: rest := by
    rcases hcase : alphaToks (pyStripSet nameStripChars (caps.parseaddr h).1) with
      _ | ⟨a, _ | ⟨b, tl⟩⟩
    · rw [hcase] at hlen; simp at hlen
    · rw [hcase] at hlen; simp at hlen
    · exact ⟨a, b, tl, rfl⟩
  simp only [simple_name_from_header_or_email, if_neg hne, hperson, if_true, htoks,
    List.isEmpty_cons, Bool.false_eq_true, if_false]
  constructor
  · rfl
  · rw [map_cap_getLast (t0 :: t1 :: rest) (by simp)]
    simp

/-- C9 counterexample: the claim says that a display name with at least
2 alphabetic tokens, none of which is a role word, yields the
Title-cased first and last tokens.  For the header
"Mary Supporter <m@x.com>" the tokens are Mary and Supporter, neither is
a role word, yet the code rejects the display name because the role word
"support" occurs as a substring of "supporter", falls back to the email
local part "m", and returns firstName "M" instead of "Mary". -/
theorem person_name_role_substring_counterexample :
    fixtureCaps.parseaddr "Mary Supporter <m@x.com>" = ("Mary Supporter", "m@x.com")
    ∧ alphaToks "Mary Supporter" = ["Mary", "Supporter"]
    ∧ (∀ t ∈ alphaToks "Mary Supporter", lowerStr t ∉ MINI_ROLE_WORDS)
    ∧ (extract_signature fixtureCaps "" (some "Mary Supporter <m@x.com>")).firstName
        = some "M"
    ∧ (some "M" : Option String) ≠ some "Mary" := by
  exact ⟨by rfl, by rfl, by decide, by rfl, by decide⟩

/-- C9 amended: for every senderHeader that is truthy and whose display
name, stripped of surrounding quote and punctuation characters, has at
least 2 whitespace tokens containing an alphabetic character and
contains no role word as a substring of its lowercased text (the
condition _looks_like_person implements), the record firstName is the
Title-cased first such alphabetic token and lastName the Title-cased
last one. -/
theorem person_name_from_header (caps : ExtCaps) (raw : String) (h : String)
    (hne : h ≠ "")
    (hperson : looks_like_person (pyStripSet nameStripChars (caps.parseaddr h).1) = true) :
    (extract_signature caps raw (some h)).firstName
      = ((alphaToks (pyStripSet nameStripChars (caps.parseaddr h).1)).head?).map cap
    ∧ (extract_signature caps raw (some h)).lastName
      = ((alphaToks (pyStripSet nameStripChars (caps.parseaddr h).1)).getLast?).map cap := by
  have hproj1 : (extract_signature caps raw (some h)).firstName
      = (simple_name_from_header_or_email caps (some h) (emailAddrOf caps raw (some h))).1 :=
    rfl
  have hproj2 : (extract_signature caps raw (some h)).lastName
      = (simple_name_from_header_or_email caps (some h) (emailAddrOf caps raw (some h))).2.1 :=
    rfl
  rw [hproj1, hproj2]
  exact simple_name_display caps h (emailAddrOf caps raw (some h)) hne hperson

theorem person_name_from_header_witness :
    (extract_signature fixtureCaps "Hi" (some "Jane Doe <jane@example.org>")).firstName
        = some "Jane"
    ∧ (extract_signature fixtureCaps "Hi" (some "Jane Doe <jane@example.org>")).lastName
        = some "Doe" := by
  have hp := person_name_from_header fixtureCaps "Hi" "Jane Doe <jane@example.org>"
    (by decide) (by decide)
  exact ⟨hp.1.trans (by rfl), hp.2.trans (by rfl)⟩

end SigScrape
